import Mathlib

/-!
Verification of the road-geometry validation core of dxf-checker.

This file embeds, in Lean 4 over exact real arithmetic, the operations of
`src/dxf_checker/checks/road_geometry_validator/`:

* `road_line.py`        — `RoadLine` (stationing, sampling, resampling,
                          curvature, bearings, curvature segmentation);
* `geometric_constraints.py` — `GeometricConstraints` and the design-radius table;
* `geometry_idealizer.py`    — near-duplicate removal, tangent straightening,
                          curve regularisation, elevation smoothing, `idealize`;
* `comparison_engine.py`     — station-synchronised comparison;
* `validation_report.py`     — `Deviation`, `summary`, `severity`.

Python floats are modelled as real numbers; Python lists as `List`;
the string-keyed metadata dict as an association list.  Out-of-range list
indexing, which the Python source never exercises on the paths studied here,
is modelled with defaulted access (`getD`).
-/

/-- A 3D vertex (x, y, z), the element type of `RoadLine.vertices`. -/
abbrev Point : Type := ℝ × ℝ × ℝ

noncomputable def dPoint : Point := (0, 0, 0)

def px (p : Point) : ℝ := p.1
def py (p : Point) : ℝ := p.2.1
def pz (p : Point) : ℝ := p.2.2

/-- The XY pair of a point; used to state that an operation leaves XY untouched. -/
def xyOf (p : Point) : ℝ × ℝ := (p.1, p.2.1)

/-- `math.hypot(dx, dy)`. -/
noncomputable def hypot (x y : ℝ) : ℝ := Real.sqrt (x ^ 2 + y ^ 2)

/-- `_utils.distance_3d` (also `GeometryIdealizer._distance_3d`). -/
noncomputable def distance3d (p q : Point) : ℝ :=
  Real.sqrt ((px p - px q) ^ 2 + (py p - py q) ^ 2 + (pz p - pz q) ^ 2)

/-- `math.atan2(y, x)` over ℝ. -/
noncomputable def atan2 (y x : ℝ) : ℝ :=
  if 0 < x then Real.arctan (y / x)
  else if x < 0 then
    (if 0 ≤ y then Real.arctan (y / x) + Real.pi else Real.arctan (y / x) - Real.pi)
  else (if 0 < y then Real.pi / 2 else if y < 0 then -(Real.pi / 2) else 0)

/-- Values stored in a `RoadLine.meta` dictionary. -/
inductive MetaVal where
  | b (v : Bool)
  | r (v : ℝ)
  | s (v : String)

/-- The `meta` dictionary: string keys in insertion order. -/
abbrev Meta : Type := List (String × MetaVal)

/-- Dictionary lookup `meta.get(k)`. -/
def metaLookup (m : Meta) (k : String) : Option MetaVal :=
  (m.find? (fun p => p.1 = k)).map (fun p => p.2)

/-- Dictionary update `{**m, k: v}` (overwrite in place if the key exists,
else append, matching Python dict insertion-order semantics). -/
def metaSet (m : Meta) (k : String) (v : MetaVal) : Meta :=
  if (m.find? (fun p => p.1 = k)).isSome then
    m.map (fun p => if p.1 = k then (k, v) else p)
  else m ++ [(k, v)]

/-- `RoadLine` from `road_line.py`: an ordered 3D vertex sequence plus metadata.
The constructor performs no validation, exactly as `RoadLine.__init__`. -/
structure RoadLine where
  vertices : List Point
  meta : Meta

/-- The cumulative-stationing recursion inside `RoadLine.stations`:
each consecutive XY distance is added to the running total. -/
noncomputable def stationsGo (acc : ℝ) : List Point → List ℝ
  | a :: b :: rest =>
      let s := acc + hypot (px b - px a) (py b - py a)
      s :: stationsGo s (b :: rest)
  | _ => []

/-- `RoadLine.stations`: cumulative 2D (XY) arc length.  Note the Python code
starts from the literal list `[0.0]`, so even a zero-vertex line yields `[0.0]`
rather than raising. -/
noncomputable def stations (vs : List Point) : List ℝ := 0 :: stationsGo 0 vs

/-- Total XY length: the last entry of `stations`. -/
noncomputable def xyLen (vs : List Point) : ℝ := (stations vs).getLastD 0

/-- The bisection loop inside `RoadLine.sample_xy_at_station`
(`while lo < hi - 1: ...`). -/
noncomputable def bisect (S : List ℝ) (station : ℝ) (lo hi : ℕ) : ℕ :=
  if h : lo + 1 < hi then
    let mid := (lo + hi) / 2
    if S.getD mid 0 ≤ station then bisect S station mid hi
    else bisect S station lo mid
  else lo
termination_by hi - lo
decreasing_by
  · omega
  · omega

/-- `RoadLine._interp_xyz`. -/
noncomputable def interpXYZ (a b : Point) (t : ℝ) : Point :=
  (px a + (px b - px a) * t, py a + (py b - py a) * t, pz a + (pz b - pz a) * t)

/-- `RoadLine.sample_xy_at_station`. -/
noncomputable def sampleXYAtStation (vs : List Point) (station : ℝ) : Point :=
  let S := stations vs
  if station ≤ 0 then vs.headD dPoint
  else if S.getLastD 0 ≤ station then vs.getLastD dPoint
  else
    let lo := bisect S station 0 (S.length - 1)
    let segLen := S.getD (lo + 1) 0 - S.getD lo 0
    let t := if segLen ≤ 1e-12 then 0 else (station - S.getD lo 0) / segLen
    interpXYZ (vs.getD lo dPoint) (vs.getD (lo + 1) dPoint) t

/-- `RoadLine.resample_by_station`: uniform-station resample; the final sampled
point is force-replaced by the exact original terminal vertex when different. -/
noncomputable def resampleByStation (rl : RoadLine) (step : ℝ) : RoadLine :=
  let L := xyLen rl.vertices
  if L ≤ 0 then rl
  else
    let n : ℤ := max 1 ⌊L / step⌋
    let pts := (List.range (n.toNat + 1)).map
      (fun i : ℕ => sampleXYAtStation rl.vertices ((i : ℝ) * step))
    let pts2 :=
      if pts.getLastD dPoint = rl.vertices.getLastD dPoint then pts
      else pts.dropLast ++ [rl.vertices.getLastD dPoint]
    ⟨pts2, metaSet rl.meta "resampled_step" (.r step)⟩

/-- `RoadLine.curvature_at`: discrete signed Menger curvature on three
consecutive XY points, zero at the endpoints and on near-degenerate triples. -/
noncomputable def curvatureAt (vs : List Point) (i : ℕ) : ℝ :=
  if i = 0 ∨ vs.length - 1 ≤ i then 0
  else
    let p1 := vs.getD (i - 1) dPoint
    let p2 := vs.getD i dPoint
    let p3 := vs.getD (i + 1) dPoint
    let ax := px p2 - px p1
    let ay := py p2 - py p1
    let bx := px p3 - px p2
    let b2 := py p3 - py p2
    let cross := ax * b2 - ay * bx
    let la := hypot ax ay
    let lb := hypot bx b2
    let lc := hypot (px p3 - px p1) (py p3 - py p1)
    let denom := la * lb * lc
    if denom ≤ 1e-12 then 0 else 2 * cross / denom

/-- `RoadLine.bearing_at`: horizontal bearing of segment i→i+1. -/
noncomputable def bearingAt (vs : List Point) (i : ℕ) : ℝ :=
  atan2 (py (vs.getD (i + 1) dPoint) - py (vs.getD i dPoint))
        (px (vs.getD (i + 1) dPoint) - px (vs.getD i dPoint))

/-- `RoadLine.bearing_at_station`: finite-difference bearing ±0.1 around s. -/
noncomputable def bearingAtStation (vs : List Point) (station : ℝ) : ℝ :=
  let S := stations vs
  if station ≤ 0 then bearingAt vs 0
  else if S.getLastD 0 ≤ station then bearingAt vs (vs.length - 2)
  else
    let p1 := sampleXYAtStation vs (max 0 (station - 0.1))
    let p2 := sampleXYAtStation vs (min (S.getLastD 0) (station + 0.1))
    atan2 (py p2 - py p1) (px p2 - px p1)

/-- One iteration of the `for i in range(1, n-1)` loop of
`RoadLine.segment_by_curvature`.  The state is (start, mode, kinds). -/
noncomputable def segStep (vs : List Point) (kt : ℝ)
    (st : ℤ × String × List (ℤ × ℤ × String)) (i : ℕ) :
    ℤ × String × List (ℤ × ℤ × String) :=
  let k := |curvatureAt vs i|
  let m := if kt ≤ k then "curve" else "tangent"
  if m ≠ st.2.1 then ((i : ℤ), m, st.2.2 ++ [(st.1, (i : ℤ), st.2.1)]) else st

/-- The loop of `RoadLine.segment_by_curvature`, running `fuel` iterations
starting at index `i`. -/
noncomputable def segLoop (vs : List Point) (kt : ℝ) :
    ℕ → ℕ → ℤ × String × List (ℤ × ℤ × String) → ℤ × String × List (ℤ × ℤ × String)
  | 0, _, st => st
  | fuel + 1, i, st => segLoop vs kt fuel (i + 1) (segStep vs kt st i)

/-- `RoadLine.segment_by_curvature`: split [0, n-1] into runs of
(start_idx, end_idx, kind) with kind ∈ {"tangent", "curve"}. -/
noncomputable def segmentByCurvature (vs : List Point) (kt : ℝ) :
    List (ℤ × ℤ × String) :=
  if vs.length < 3 then [(0, (vs.length : ℤ) - 1, "tangent")]
  else
    let st := segLoop vs kt (vs.length - 2) 1 (0, "tangent", [])
    st.2.2 ++ [(st.1, (vs.length : ℤ) - 1, st.2.1)]

/-- `GeometricConstraints` from `geometric_constraints.py`. -/
structure GeometricConstraints where
  tolerance_horizontal_deviation : ℝ
  tolerance_elevation_deviation : ℝ
  smoothing_factor : ℝ
  road_class : String
  context : String
  design_speed_kph : ℝ
  max_superelevation : ℝ
  max_grade : ℝ
  min_horizontal_radius : ℝ

/-- The dataclass defaults of `GeometricConstraints`. -/
noncomputable def defaultGeometricConstraints : GeometricConstraints :=
  ⟨0.05, 0.03, 0.3, "arterial", "urban", 60.0, 0.08, 0.08, 30.0⟩

/-- The per-class speed/radius table inside
`GeometricConstraints.min_radius_for_design`, in insertion order. -/
noncomputable def designTable (cls : String) : List (ℝ × ℝ) :=
  if cls = "highway" then [(50, 120), (60, 180), (80, 360), (100, 600), (120, 900)]
  else if cls = "arterial" then [(40, 80), (50, 120), (60, 180), (80, 300)]
  else if cls = "collector" then [(30, 50), (40, 80), (50, 120), (60, 160)]
  else if cls = "local" then [(20, 20), (30, 40), (40, 70)]
  else []

/-- The `sorted(..., key=abs(speed - design_speed))[0]` selection: a stable
minimum, so the earliest entry wins ties. -/
noncomputable def nearestKey (speed : ℝ) (best : ℝ × ℝ) : List (ℝ × ℝ) → ℝ × ℝ
  | [] => best
  | p :: rest =>
      nearestKey speed (if |p.1 - speed| < |best.1 - speed| then p else best) rest

/-- `GeometricConstraints.min_radius_for_design`. -/
noncomputable def minRadiusForDesign (c : GeometricConstraints) : ℝ :=
  match designTable c.road_class with
  | [] => max c.min_horizontal_radius 30.0
  | p :: rest => (nearestKey c.design_speed_kph p rest).2

/-- `GeometryIdealizer` construction parameters. -/
structure GeometryIdealizer where
  constraints : GeometricConstraints
  mode : String
  k_threshold : ℝ
  max_xy_shift : ℝ
  tangent_rmse_tol : ℝ
  curve_rmse_tol : ℝ

/-- The keyword defaults of `GeometryIdealizer.__init__` (conservative mode). -/
noncomputable def defaultIdealizer : GeometryIdealizer :=
  ⟨defaultGeometricConstraints, "conservative", 8e-4, 0.08, 0.025, 0.03⟩

/-- The filtering loop of `GeometryIdealizer._remove_near_duplicates`:
`prev` is the last kept point (`cleaned[-1]`). -/
noncomputable def dedupLoop (minD : ℝ) : Point → List Point → List Point
  | _, [] => []
  | prev, p :: rest =>
      if minD ≤ distance3d p prev then p :: dedupLoop minD p rest
      else dedupLoop minD prev rest

/-- `GeometryIdealizer._remove_near_duplicates`.  Note: the trailing
`if len(cleaned) > 1 and cleaned[-1] != vertices[-1]` append means the final
input vertex is restored only when at least two points survived. -/
noncomputable def removeNearDuplicates (g : GeometryIdealizer) (vs : List Point) :
    List Point :=
  if vs.length ≤ 2 then vs
  else
    let minD := if g.mode = "aggressive" then 0.01 else 0.005
    let cleaned := vs.headD dPoint :: dedupLoop minD (vs.headD dPoint) (vs.drop 1)
    if 1 < cleaned.length ∧ cleaned.getLastD dPoint ≠ vs.getLastD dPoint then
      cleaned ++ [vs.getLastD dPoint]
    else cleaned

/-- Mean of the X coordinates (`cx` / `mx` in the Python locals). -/
noncomputable def meanX (pts : List Point) : ℝ := (pts.map px).sum / pts.length

/-- Mean of the Y coordinates (`cy` / `my` in the Python locals). -/
noncomputable def meanY (pts : List Point) : ℝ := (pts.map py).sum / pts.length

/-- `sxx` of `_straighten_tangent`. -/
noncomputable def pcaSxx (pts : List Point) : ℝ :=
  ((pts.map px).map (fun x => (x - meanX pts) ^ 2)).sum

/-- `syy` of `_straighten_tangent`. -/
noncomputable def pcaSyy (pts : List Point) : ℝ :=
  ((pts.map py).map (fun y => (y - meanY pts) ^ 2)).sum

/-- `sxy` of `_straighten_tangent`. -/
noncomputable def pcaSxy (pts : List Point) : ℝ :=
  (((pts.map px).zip (pts.map py)).map
    (fun q => (q.1 - meanX pts) * (q.2 - meanY pts))).sum

/-- `theta` of `_straighten_tangent`: principal direction, 0 on the
degenerate covariance. -/
noncomputable def pcaTheta (pts : List Point) : ℝ :=
  if pcaSxx pts ≠ pcaSyy pts ∨ pcaSxy pts ≠ 0 then
    0.5 * atan2 (2 * pcaSxy pts) (pcaSxx pts - pcaSyy pts)
  else 0

/-- `proj` of `_straighten_tangent`: each point projected onto the fitted
line through (cx, cy) with direction (cos θ, sin θ). -/
noncomputable def pcaProj (pts : List Point) : List (ℝ × ℝ) :=
  pts.map (fun p =>
    let t := (px p - meanX pts) * Real.cos (pcaTheta pts) +
      (py p - meanY pts) * Real.sin (pcaTheta pts)
    (meanX pts + t * Real.cos (pcaTheta pts),
     meanY pts + t * Real.sin (pcaTheta pts)))

/-- `errs` of `_straighten_tangent`: pointwise projection residuals. -/
noncomputable def pcaErrs (pts : List Point) : List ℝ :=
  (pts.zip (pcaProj pts)).map (fun q => hypot (q.2.1 - px q.1) (q.2.2 - py q.1))

/-- `rmse` of `_straighten_tangent`. -/
noncomputable def pcaRmse (pts : List Point) : ℝ :=
  Real.sqrt (((pcaErrs pts).map (fun e => e * e)).sum /
    (max 1 (pcaErrs pts).length : ℕ))

/-- The shared displacement cap: scale (dx, dy) down to length `cap` when it
exceeds it (the `if d > max_xy_shift: scale = ...` blocks). -/
noncomputable def capXY (cap dx dy : ℝ) : ℝ × ℝ :=
  if cap < hypot dx dy then (dx * (cap / hypot dx dy), dy * (cap / hypot dx dy))
  else (dx, dy)

/-- The corrected interior points of `_straighten_tangent` (the loop over
`zip(pts[1:-1], proj[1:-1])` with gain and cap). -/
noncomputable def tangentMids (g : GeometryIdealizer) (pts : List Point) :
    List Point :=
  (((pts.drop 1).dropLast).zip (((pcaProj pts).drop 1).dropLast)).map (fun q =>
    let gain := if g.mode = "aggressive" then 0.6 else 0.35
    let dxy := capXY g.max_xy_shift ((q.2.1 - px q.1) * gain)
      ((q.2.2 - py q.1) * gain)
    (px q.1 + dxy.1, py q.1 + dxy.2, pz q.1))

/-- `GeometryIdealizer._straighten_tangent`: PCA line fit in XY, gated by
RMSE, with gain- and cap-limited displacement; endpoints of the run are
kept. -/
noncomputable def straightenTangent (g : GeometryIdealizer) (pts : List Point) :
    List Point :=
  if pts.length < 3 then pts
  else if g.tangent_rmse_tol < pcaRmse pts then pts
  else pts.headD dPoint :: tangentMids g pts ++ [pts.getLastD dPoint]

/-- The `cross` helper local to `GeometryIdealizer._regularize_curve`. -/
noncomputable def cross2 (a b c : Point) : ℝ :=
  (px b - px a) * (py c - py b) - (py b - py a) * (px c - px b)

/-- The summed turning sign `sum(cross(p[i-1], p[i], p[i+1]))` over interior
indices, as used twice inside `_regularize_curve`. -/
noncomputable def crossSum (l : List Point) : ℝ :=
  (((l.zip (l.drop 1)).zip (l.drop 2)).map (fun q => cross2 q.1.1 q.1.2 q.2)).sum

/-- `u` of `_regularize_curve`: centred X coordinates. -/
noncomputable def kasaU (pts : List Point) : List ℝ :=
  (pts.map px).map (fun x => x - meanX pts)

/-- `v` of `_regularize_curve`: centred Y coordinates. -/
noncomputable def kasaV (pts : List Point) : List ℝ :=
  (pts.map py).map (fun y => y - meanY pts)

/-- `Suu` of `_regularize_curve`. -/
noncomputable def kasaSuu (pts : List Point) : ℝ :=
  ((kasaU pts).map (fun a => a * a)).sum

/-- `Svv` of `_regularize_curve`. -/
noncomputable def kasaSvv (pts : List Point) : ℝ :=
  ((kasaV pts).map (fun a => a * a)).sum

/-- `Suv` of `_regularize_curve`. -/
noncomputable def kasaSuv (pts : List Point) : ℝ :=
  (((kasaU pts).zip (kasaV pts)).map (fun q => q.1 * q.2)).sum

/-- `Suuu` of `_regularize_curve`. -/
noncomputable def kasaSuuu (pts : List Point) : ℝ :=
  ((kasaU pts).map (fun a => a * a * a)).sum

/-- `Svvv` of `_regularize_curve`. -/
noncomputable def kasaSvvv (pts : List Point) : ℝ :=
  ((kasaV pts).map (fun a => a * a * a)).sum

/-- `Suvv` of `_regularize_curve`. -/
noncomputable def kasaSuvv (pts : List Point) : ℝ :=
  (((kasaU pts).zip (kasaV pts)).map (fun q => q.1 * q.2 * q.2)).sum

/-- `Svuu` of `_regularize_curve`. -/
noncomputable def kasaSvuu (pts : List Point) : ℝ :=
  (((kasaU pts).zip (kasaV pts)).map (fun q => q.2 * q.1 * q.1)).sum

/-- `det` of `_regularize_curve`. -/
noncomputable def kasaDet (pts : List Point) : ℝ :=
  2 * (kasaSuu pts * kasaSvv pts - kasaSuv pts * kasaSuv pts)

/-- `cx` of `_regularize_curve` (centre of the fitted circle). -/
noncomputable def kasaCx (pts : List Point) : ℝ :=
  meanX pts + (kasaSvv pts * (kasaSuuu pts + kasaSuvv pts) -
    kasaSuv pts * (kasaSvvv pts + kasaSvuu pts)) / kasaDet pts

/-- `cy` of `_regularize_curve`. -/
noncomputable def kasaCy (pts : List Point) : ℝ :=
  meanY pts + (kasaSuu pts * (kasaSvvv pts + kasaSvuu pts) -
    kasaSuv pts * (kasaSuuu pts + kasaSuvv pts)) / kasaDet pts

/-- `r` of `_regularize_curve` (mean radial distance). -/
noncomputable def kasaR (pts : List Point) : ℝ :=
  (((pts.map px).zip (pts.map py)).map
    (fun q => hypot (q.1 - kasaCx pts) (q.2 - kasaCy pts))).sum / pts.length

/-- `rmse` of `_regularize_curve` (radial residual RMSE). -/
noncomputable def kasaRmse (pts : List Point) : ℝ :=
  Real.sqrt (((((pts.map px).zip (pts.map py)).map
    (fun q => |hypot (q.1 - kasaCx pts) (q.2 - kasaCy pts) - kasaR pts|)).map
      (fun e => e * e)).sum / pts.length)

/-- The radially nudged interior points of `_regularize_curve` (the loop
over `pts[1:-1]` with strength and cap; points at the fitted centre are kept
as-is). -/
noncomputable def curveMids (g : GeometryIdealizer) (pts : List Point) :
    List Point :=
  ((pts.drop 1).dropLast).map (fun p =>
    let rx := px p - kasaCx pts
    let ry := py p - kasaCy pts
    if hypot rx ry < 1e-9 then p
    else
      let strength := if g.mode = "aggressive" then 0.6 else 0.35
      let dxy := capXY g.max_xy_shift
        ((kasaCx pts + kasaR pts * rx / hypot rx ry - px p) * strength)
        ((kasaCy pts + kasaR pts * ry / hypot rx ry - py p) * strength)
      (px p + dxy.1, py p + dxy.2, pz p))

/-- `out` of `_regularize_curve`: first point, nudged interior, last point. -/
noncomputable def curveOut (g : GeometryIdealizer) (pts : List Point) :
    List Point :=
  pts.headD dPoint :: curveMids g pts ++ [pts.getLastD dPoint]

/-- `GeometryIdealizer._regularize_curve`: Kåsa circle fit with singularity,
RMSE, design-radius and turning-sign gates; endpoints of the run are kept. -/
noncomputable def regularizeCurve (g : GeometryIdealizer) (pts : List Point) :
    List Point :=
  if pts.length < 3 then pts
  else if |kasaDet pts| < 1e-12 then pts
  else if g.curve_rmse_tol < kasaRmse pts then pts
  else if kasaR pts < minRadiusForDesign g.constraints * 0.8 then pts
  else if crossSum pts * crossSum (curveOut g pts) < 0 then pts
  else curveOut g pts

/-- The per-vertex rule of `GeometryIdealizer._smooth_elevations_only`:
blend Z toward the neighbour average by `max(0.3, smoothing_factor)` when the
deviation is under 1cm, else keep the point; XY is copied through. -/
noncomputable def smoothPoint (c : GeometricConstraints) (prevZ nextZ : ℝ)
    (p : Point) : Point :=
  let expected := (prevZ + nextZ) / 2
  if |pz p - expected| < 0.01 then
    (px p, py p, pz p + max 0.3 c.smoothing_factor * (expected - pz p))
  else p

/-- `GeometryIdealizer._smooth_elevations_only`. -/
noncomputable def smoothElevationsOnly (c : GeometricConstraints)
    (vs : List Point) : List Point :=
  if vs.length < 3 then vs
  else
    vs.headD dPoint ::
      (((vs.zip (vs.drop 1)).zip (vs.drop 2)).map
        (fun q => smoothPoint c (pz q.1.1) (pz q.2) q.1.2))
      ++ [vs.getLastD dPoint]

/-- Python slice `cleaned[a : b+1]` for the integer run bounds. -/
noncomputable def sliceChunk (l : List Point) (a b : ℤ) : List Point :=
  (l.drop a.toNat).take (b.toNat + 1 - a.toNat)

/-- The per-run dispatch inside `GeometryIdealizer.idealize`: runs shorter
than 3 points pass through; tangent runs are straightened, curve runs
regularised. -/
noncomputable def processChunk (g : GeometryIdealizer) (kind : String)
    (chunk : List Point) : List Point :=
  if chunk.length < 3 then chunk
  else if kind = "tangent" then straightenTangent g chunk
  else regularizeCurve g chunk

/-- The `xy_fixed` accumulation of `GeometryIdealizer.idealize`: start from
`[cleaned[0]]` and append each processed run without its first point. -/
noncomputable def buildXYFixed (g : GeometryIdealizer) (cleaned : List Point)
    (segs : List (ℤ × ℤ × String)) : List Point :=
  segs.foldl
    (fun acc s => acc ++ (processChunk g s.2.2 (sliceChunk cleaned s.1 s.2.1)).drop 1)
    [cleaned.headD dPoint]

/-- `GeometryIdealizer.idealize`.  Lines with fewer than 3 vertices are
returned as-is (the Python code returns `road_line` itself, untagged). -/
noncomputable def idealize (g : GeometryIdealizer) (rl : RoadLine) : RoadLine :=
  if rl.vertices.length < 3 then rl
  else
    let cleaned := removeNearDuplicates g rl.vertices
    if cleaned.length < 3 then ⟨cleaned, metaSet rl.meta "idealized" (.b true)⟩
    else
      let segs := segmentByCurvature cleaned g.k_threshold
      let xyFixed := buildXYFixed g cleaned segs
      ⟨smoothElevationsOnly g.constraints xyFixed,
       metaSet rl.meta "idealized" (.b true)⟩

/-- `Deviation` from `validation_report.py`. -/
structure Deviation where
  vertex_index : ℕ
  station : ℝ
  original : Point
  ideal : Point
  horizontal_error : ℝ
  elevation_error : ℝ
  curvature_dev : ℝ
  bearing_dev : ℝ
  design_radius : ℝ
  design_ok : Bool

/-- `ValidationReport`.  The Python constructor substitutes default
`GeometricConstraints` when none are passed; the field here holds the
resolved value. -/
structure ValidationReport where
  original : RoadLine
  ideal : RoadLine
  deviations : List Deviation
  constraints : GeometricConstraints

/-- `ValidationReport.severity`: note the `horizontal_error <= 0.0` short
circuit that precedes the `design_ok` test. -/
noncomputable def ValidationReport.severity (rep : ValidationReport)
    (d : Deviation) : String :=
  let hTol := rep.constraints.tolerance_horizontal_deviation
  if d.horizontal_error ≤ 0 then "low"
  else if 2 * hTol < d.horizontal_error ∨ d.design_ok = false then "high"
  else if hTol < d.horizontal_error then "medium"
  else "low"

/-- Value type of the `ValidationReport.summary` dictionary. -/
inductive SummaryVal where
  | num (v : ℝ)
  | int (v : ℕ)
  | tally (high med low : ℕ)

/-- `max` over a Python list of floats (the lists passed are non-empty). -/
noncomputable def listMax : List ℝ → ℝ
  | [] => 0
  | x :: xs => xs.foldl max x

/-- The local `_std` helper of `ValidationReport.summary`
(sample standard deviation, 0 for fewer than two values). -/
noncomputable def sampleStd (a : List ℝ) : ℝ :=
  if a.length < 2 then 0
  else
    let m := a.sum / a.length
    Real.sqrt ((a.map (fun x => (x - m) ^ 2)).sum / (a.length - 1 : ℕ))

/-- `ValidationReport.summary`, as an insertion-ordered dictionary. -/
noncomputable def ValidationReport.summary (rep : ValidationReport) :
    List (String × SummaryVal) :=
  if rep.deviations.isEmpty then
    [("max_horizontal", .num 0), ("max_elevation", .num 0), ("count", .int 0)]
  else
    let hs := rep.deviations.map (fun d => d.horizontal_error)
    let zs := rep.deviations.map (fun d => d.elevation_error)
    let curvs := rep.deviations.map (fun d => d.curvature_dev)
    let bears := rep.deviations.map (fun d => d.bearing_dev)
    let sevs := rep.deviations.map (fun d => rep.severity d)
    [("count", .int rep.deviations.length),
     ("max_horizontal", .num (listMax hs)),
     ("mean_horizontal", .num (hs.sum / hs.length)),
     ("std_horizontal", .num (sampleStd hs)),
     ("max_elevation", .num (listMax zs)),
     ("mean_elevation", .num (zs.sum / zs.length)),
     ("std_elevation", .num (sampleStd zs)),
     ("max_curvature_dev", .num (listMax curvs)),
     ("mean_curvature_dev", .num (curvs.sum / curvs.length)),
     ("max_bearing_dev_rad", .num (listMax bears)),
     ("mean_bearing_dev_rad", .num (bears.sum / bears.length)),
     ("severity_counts", .tally
        (sevs.countP (fun s => s = "high"))
        (sevs.countP (fun s => s = "medium"))
        (sevs.countP (fun s => s = "low")))]

/-- `ComparisonEngine` construction parameters. -/
structure ComparisonEngine where
  station_step : ℝ
  constraints : GeometricConstraints
  deadband_h : ℝ
  deadband_z : ℝ
  min_report_error : ℝ
  round_mm : ℤ

/-- The keyword defaults of `ComparisonEngine.__init__`. -/
noncomputable def defaultComparisonEngine : ComparisonEngine :=
  ⟨5.0, defaultGeometricConstraints, 0.012, 0.015, 0.015, 1⟩

/-- Python `round(v, 3)`: decimal rounding with ties to even, modelled on ℝ. -/
noncomputable def pyRound3 (v : ℝ) : ℝ :=
  let y := v * 1000
  (if Int.fract y = 1 / 2 then
     (if Even ⌊y⌋ then (⌊y⌋ : ℝ) else (⌊y⌋ : ℝ) + 1)
   else ((round y : ℤ) : ℝ)) / 1000

/-- `ComparisonEngine._curv_at_station`: Menger curvature of the triple
sampled at s−eps, s, s+eps. -/
noncomputable def curvAtStation (e : ComparisonEngine) (vs : List Point)
    (s : ℝ) : ℝ :=
  let eps := max 0.5 e.station_step
  let p1 := sampleXYAtStation vs (max 0 (s - eps))
  let p := sampleXYAtStation vs s
  let p2 := sampleXYAtStation vs (min ((stations vs).getLastD 0) (s + eps))
  let ax := px p - px p1
  let ay := py p - py p1
  let bx := px p2 - px p
  let b2 := py p2 - py p
  let cross := ax * b2 - ay * bx
  let denom := hypot ax ay * hypot bx b2 * hypot (px p2 - px p1) (py p2 - py p1)
  if denom ≤ 1e-12 then 0 else 2 * cross / denom

/-- One station of the `while station <= L + 1e-9` loop of
`ComparisonEngine.compare`: station `i * step`, producing either a recorded
`Deviation` or `none` when the trivial-row filter discards it. -/
noncomputable def rowAt (e : ComparisonEngine) (va vb : List Point)
    (step : ℝ) (i : ℕ) : Option Deviation :=
  let station := (i : ℝ) * step
  let oa := sampleXYAtStation va station
  let ib := sampleXYAtStation vb station
  let h0 := hypot (px oa - px ib) (py oa - py ib)
  let z0 := |pz oa - pz ib|
  let hErr := if h0 ≤ e.deadband_h then 0 else h0
  let zErr := if z0 ≤ e.deadband_z then 0 else z0
  let kA := curvAtStation e va station
  let kB := curvAtStation e vb station
  let brA := bearingAtStation va station
  let brB := bearingAtStation vb station
  let w := brA - brB + Real.pi
  let bearingDev := |w - 2 * Real.pi * ⌊w / (2 * Real.pi)⌋ - Real.pi|
  let rIdeal := if |kB| < 1e-9 then 1e9 else 1 / |kB|
  let designOk := decide (minRadiusForDesign e.constraints ≤ rIdeal)
  if hErr < e.min_report_error ∧ zErr = 0 then none
  else
    some ⟨i, pyRound3 station,
          (pyRound3 (px oa), pyRound3 (py oa), pyRound3 (pz oa)),
          (pyRound3 (px ib), pyRound3 (py ib), pyRound3 (pz ib)),
          pyRound3 hErr, pyRound3 zErr, pyRound3 |kA - kB|, bearingDev,
          pyRound3 rIdeal, designOk⟩

/-- `ComparisonEngine.compare`.  The station loop is modelled by its
iteration count: with `step > 0`, station `i*step` is visited exactly for
`i*step ≤ L + 1e-9`, i.e. `i ≤ ⌊(L + 1e-9)/step⌋`.  The reports are built
with default constraints, exactly as the Python calls
`ValidationReport(original=..., ideal=..., deviations=...)`. -/
noncomputable def ComparisonEngine.compare (e : ComparisonEngine)
    (original ideal : RoadLine) : ValidationReport :=
  if ideal.vertices.length < 2 ∨ original.vertices.length < 2 then
    ⟨original, ideal, [], defaultGeometricConstraints⟩
  else
    let step := max 0.5 e.station_step
    let a := resampleByStation original step
    let b := resampleByStation ideal step
    let L := min ((stations a.vertices).getLastD 0) ((stations b.vertices).getLastD 0)
    if L ≤ 0 then ⟨original, ideal, [], defaultGeometricConstraints⟩
    else
      let numIter := (⌊(L + 1e-9) / step⌋).toNat + 1
      ⟨original, ideal,
       (List.range numIter).filterMap (rowAt e a.vertices b.vertices step),
       defaultGeometricConstraints⟩

/-- The severity rule exactly as the specification words it (for comparison
with the implemented `ValidationReport.severity`): "high" if
horizontal_error > 2×tolerance OR design_ok is false; "medium" if
horizontal_error > tolerance; otherwise "low". -/
noncomputable def specSeverity (tol : ℝ) (d : Deviation) : String :=
  if 2 * tol < d.horizontal_error ∨ d.design_ok = false then "high"
  else if tol < d.horizontal_error then "medium"
  else "low"

/-- A run list `[(s₀,e₀,_), (s₁,e₁,_), …]` is chained from `a` to `b`:
the first run starts at `a`, each run starts where the previous one ends,
every run is non-degenerate (`s < e`), and the last run ends at `b`. -/
def Chained : ℤ → ℤ → List (ℤ × ℤ × String) → Prop
  | a, b, [] => a = b
  | a, b, r :: rest => r.1 = a ∧ r.1 < r.2.1 ∧ Chained r.2.1 b rest

/-- A two-vertex line, 1 m long, with empty metadata. -/
noncomputable def lineTwo : RoadLine := ⟨[(0, 0, 0), (1, 0, 0)], []⟩

/-- Five vertices: two collinear steps of (4,3), one corner, two collinear
steps of (4,-3).  All pairwise XY distances involved are integers
(3-4-5 triangles), so every curvature value is rational. -/
noncomputable def pts5 : List Point :=
  [(0, 0, 0), (4, 3, 0), (8, 6, 0), (12, 3, 0), (16, 0, 0)]

/-- Three vertices whose middle Z (5 mm) deviates from its neighbour average
by less than the 1 cm noise threshold. -/
noncomputable def pts3 : List Point := [(0, 0, 0), (1, 0, 0.005), (2, 0, 0)]

/-- A three-vertex line whose points are all within 5 mm of each other, so
conservative near-duplicate removal collapses it to a single point. -/
noncomputable def collapseLine : RoadLine :=
  ⟨[(0, 0, 0), (0.001, 0, 0), (0.002, 0, 0)], []⟩

/-- A deviation with zero horizontal error but a design-radius violation. -/
noncomputable def devNoShift : Deviation :=
  ⟨0, 0, (0, 0, 0), (0, 0, 0), 0, 0.5, 0, 0, 10, false⟩

/-- A deviation with a 0.2 m horizontal error (4× the default tolerance). -/
noncomputable def devWide : Deviation :=
  ⟨0, 0, (0, 0, 0), (0.2, 0, 0), 0.2, 0, 0, 0, 1000000000, true⟩

/-- A report carrying the default constraints (tolerance 0.05 m). -/
noncomputable def repDefault : ValidationReport :=
  ⟨lineTwo, lineTwo, [], defaultGeometricConstraints⟩

/-- Constraints configured with a smoothing factor below the 0.3 floor. -/
noncomputable def lowSmoothConstraints : GeometricConstraints :=
  ⟨0.05, 0.03, 0.1, "arterial", "urban", 60.0, 0.08, 0.08, 30.0⟩

/-- C5: `stations` on a zero-vertex line silently returns the one-element
list `[0.0]` — there is no precondition check anywhere (`RoadLine.__init__`
stores the list unvalidated), so the operation does NOT fail fast; it
produces exactly the degenerate output the specification forbids. -/
theorem stations_empty_is_silent : stations ([] : List Point) = [0] := rfl

/-- C10: on an empty deviation sequence, `summary` returns the dictionary
with exactly the keys max_horizontal (0.0), max_elevation (0.0) and
count (0), in that insertion order, omitting every other field. -/
theorem summary_empty_shape (o i : RoadLine) (c : GeometricConstraints) :
    ValidationReport.summary ⟨o, i, [], c⟩ =
      [("max_horizontal", .num 0), ("max_elevation", .num 0), ("count", .int 0)] :=
  rfl

/-- C2 (amended): `idealize` on a line with fewer than 3 vertices returns
the input `RoadLine` itself, unchanged — same vertices AND same metadata;
in particular no `idealized` tag is added. -/
theorem idealize_short_identity (g : GeometryIdealizer) (rl : RoadLine)
    (h : rl.vertices.length < 3) : idealize g rl = rl := by
  unfold idealize
  rw [if_pos h]

/-- Witness for `idealize_short_identity` at a concrete two-vertex line. -/
theorem idealize_short_identity_witness :
    lineTwo.vertices.length < 3 ∧ idealize defaultIdealizer lineTwo = lineTwo :=
  ⟨by decide, idealize_short_identity defaultIdealizer lineTwo (by decide)⟩

/-- C2 counterexample: contrary to the claim, the result of idealizing a
two-vertex line carries no `idealized = true` metadata tag — the metadata is
returned untouched (here: empty). -/
theorem idealize_short_untagged_cex :
    metaLookup (idealize defaultIdealizer lineTwo).meta "idealized" = none := by
  unfold idealize
  rw [if_pos (by decide : lineTwo.vertices.length < 3)]
  rfl

/-- C1 (amended): `severity` returns "low" whenever horizontal_error ≤ 0,
regardless of design_ok; only for horizontal_error > 0 does it follow the
specification's rule ("high" if error > 2×tolerance or design_ok is false,
"medium" if error > tolerance, else "low"). -/
theorem severity_rule (rep : ValidationReport) (d : Deviation) :
    (d.horizontal_error ≤ 0 → rep.severity d = "low") ∧
    (0 < d.horizontal_error →
      rep.severity d =
        specSeverity rep.constraints.tolerance_horizontal_deviation d) := by
  constructor
  · intro h
    simp only [ValidationReport.severity]
    rw [if_pos h]
  · intro h
    simp only [ValidationReport.severity, specSeverity]
    rw [if_neg (not_le.mpr h)]

/-- Witness for `severity_rule` at a deviation with 0.2 m horizontal error. -/
theorem severity_rule_witness :
    0 < devWide.horizontal_error ∧
    ValidationReport.severity repDefault devWide =
      specSeverity repDefault.constraints.tolerance_horizontal_deviation devWide :=
  ⟨by norm_num [devWide], (severity_rule repDefault devWide).2 (by norm_num [devWide])⟩

/-- C1 counterexample: a deviation with zero horizontal error and
design_ok = false is classified "low" by the code, while the claim's rule
classifies it "high" — the `horizontal_error <= 0` guard wins. -/
theorem severity_zero_design_cex :
    ValidationReport.severity repDefault devNoShift ≠
      specSeverity repDefault.constraints.tolerance_horizontal_deviation devNoShift := by
  have h1 : ValidationReport.severity repDefault devNoShift = "low" := by
    simp only [ValidationReport.severity]
    rw [if_pos (by norm_num [devNoShift])]
  have h2 : specSeverity repDefault.constraints.tolerance_horizontal_deviation
      devNoShift = "high" := by
    simp only [specSeverity]
    rw [if_pos (Or.inr (by norm_num [devNoShift]))]
  rw [h1, h2]
  decide

theorem chained_le : ∀ (l : List (ℤ × ℤ × String)) (a b : ℤ),
    Chained a b l → a ≤ b
  | [], _, _, h => le_of_eq h
  | r :: rest, a, b, h => by
    obtain ⟨h1, h2, h3⟩ := h
    have := chained_le rest r.2.1 b h3
    omega

theorem chained_append_single :
    ∀ (l : List (ℤ × ℤ × String)) (a b c : ℤ) (m : String),
    Chained a b l → b < c → Chained a c (l ++ [(b, c, m)])
  | [], a, b, c, m, h, hbc => by
    refine ⟨h.symm, hbc, rfl⟩
  | r :: rest, a, b, c, m, h, hbc => by
    obtain ⟨h1, h2, h3⟩ := h
    exact ⟨h1, h2, chained_append_single rest r.2.1 b c m h3 hbc⟩

theorem chained_cover_zero : ∀ (l : List (ℤ × ℤ × String)) (a b j : ℤ),
    Chained a b l → j < a →
    l.countP (fun r => decide (r.1 ≤ j ∧ j < r.2.1)) = 0
  | [], _, _, _, _, _ => rfl
  | r :: rest, a, b, j, h, hj => by
    obtain ⟨h1, h2, h3⟩ := h
    have hz := chained_cover_zero rest r.2.1 b j h3 (by omega)
    have hno : decide (r.1 ≤ j ∧ j < r.2.1) = false :=
      decide_eq_false (by omega)
    rw [List.countP_cons, hz]
    show 0 + (if decide (r.1 ≤ j ∧ j < r.2.1) = true then 1 else 0) = 0
    rw [hno]
    rfl

theorem chained_cover_one : ∀ (l : List (ℤ × ℤ × String)) (a b j : ℤ),
    Chained a b l → a ≤ j → j < b →
    l.countP (fun r => decide (r.1 ≤ j ∧ j < r.2.1)) = 1
  | [], a, b, j, h, haj, hjb => by
    simp only [List.countP_nil]
    have : a = b := h
    omega
  | r :: rest, a, b, j, h, haj, hjb => by
    obtain ⟨e1, e2, e3⟩ := h
    by_cases hc : j < r.2.1
    · have hz := chained_cover_zero rest r.2.1 b j e3 hc
      have hyes : decide (r.1 ≤ j ∧ j < r.2.1) = true :=
        decide_eq_true ⟨by omega, hc⟩
      rw [List.countP_cons, hz]
      show 0 + (if decide (r.1 ≤ j ∧ j < r.2.1) = true then 1 else 0) = 1
      rw [hyes]
      rfl
    · have ho := chained_cover_one rest r.2.1 b j e3 (by omega) hjb
      have hno : decide (r.1 ≤ j ∧ j < r.2.1) = false :=
        decide_eq_false (by omega)
      rw [List.countP_cons, ho]
      show 1 + (if decide (r.1 ≤ j ∧ j < r.2.1) = true then 1 else 0) = 1
      rw [hno]
      rfl

theorem segLoop_zero (vs : List Point) (kt : ℝ) (i : ℕ)
    (st : ℤ × String × List (ℤ × ℤ × String)) :
    segLoop vs kt 0 i st = st := rfl

theorem segLoop_succ (vs : List Point) (kt : ℝ) (fuel i : ℕ)
    (st : ℤ × String × List (ℤ × ℤ × String)) :
    segLoop vs kt (fuel + 1) i st = segLoop vs kt fuel (i + 1) (segStep vs kt st i) :=
  rfl

theorem segStep_chain (vs : List Point) (kt : ℝ) (i : ℕ)
    (st : ℤ × String × List (ℤ × ℤ × String))
    (hc : Chained 0 st.1 st.2.2) (hi : st.1 < (i : ℤ)) :
    Chained 0 (segStep vs kt st i).1 (segStep vs kt st i).2.2 ∧
      (segStep vs kt st i).1 < ((i : ℤ) + 1) := by
  have hrw : segStep vs kt st i =
      (if (if kt ≤ |curvatureAt vs i| then "curve" else "tangent") ≠ st.2.1
       then ((i : ℤ), (if kt ≤ |curvatureAt vs i| then "curve" else "tangent"),
             st.2.2 ++ [(st.1, (i : ℤ), st.2.1)])
       else st) := rfl
  rw [hrw]
  split <;> split
  · refine ⟨chained_append_single _ _ _ _ _ hc hi, ?_⟩
    show (i : ℤ) < (i : ℤ) + 1
    omega
  · exact ⟨hc, by omega⟩
  · refine ⟨chained_append_single _ _ _ _ _ hc hi, ?_⟩
    show (i : ℤ) < (i : ℤ) + 1
    omega
  · exact ⟨hc, by omega⟩

theorem segLoop_chain (vs : List Point) (kt : ℝ) :
    ∀ (fuel i : ℕ) (st : ℤ × String × List (ℤ × ℤ × String)),
    Chained 0 st.1 st.2.2 → st.1 < (i : ℤ) →
    Chained 0 (segLoop vs kt fuel i st).1 (segLoop vs kt fuel i st).2.2 ∧
      (segLoop vs kt fuel i st).1 < (i : ℤ) + fuel
  | 0, i, st, hc, hi => by
    rw [segLoop_zero]
    refine ⟨hc, ?_⟩
    push_cast
    omega
  | fuel + 1, i, st, hc, hi => by
    rw [segLoop_succ]
    have hstep := segStep_chain vs kt i st hc hi
    have hrec := segLoop_chain vs kt fuel (i + 1) (segStep vs kt st i) hstep.1
      (by push_cast; exact hstep.2)
    refine ⟨hrec.1, ?_⟩
    have h2 := hrec.2
    push_cast at h2 ⊢
    omega

/-- The run list returned by `segment_by_curvature` is chained from index 0
to index n-1 (for any line with at least two vertices). -/
theorem segmentByCurvature_chained (vs : List Point) (kt : ℝ)
    (h : 2 ≤ vs.length) :
    Chained 0 ((vs.length : ℤ) - 1) (segmentByCurvature vs kt) := by
  unfold segmentByCurvature
  split
  · rename_i hlt
    have h2 : vs.length = 2 := by omega
    rw [h2]
    exact ⟨rfl, by norm_num, rfl⟩
  · rename_i hge
    push_neg at hge
    have hbase : Chained 0 (0 : ℤ) ([] : List (ℤ × ℤ × String)) := rfl
    have hl := segLoop_chain vs kt (vs.length - 2) 1 (0, "tangent", []) hbase
      (by norm_num)
    refine chained_append_single _ _ _ _ _ hl.1 ?_
    have h2 := hl.2
    omega

/-- C3 (amended): for any line with at least 2 vertices and any threshold,
the runs of `segment_by_curvature` are chained: the first run starts at 0,
each run starts exactly where the previous one ends (so adjacent runs share
their single boundary index), every run is non-degenerate, and the last run
ends at n-1.  Reading each run as the half-open index span [start, end), with
the final run also covering n-1, every index is covered exactly once. -/
theorem segmentation_partition (vs : List Point) (kt : ℝ)
    (h : 2 ≤ vs.length) :
    Chained 0 ((vs.length : ℤ) - 1) (segmentByCurvature vs kt) ∧
    ∀ j : ℤ, 0 ≤ j → j < (vs.length : ℤ) - 1 →
      (segmentByCurvature vs kt).countP
        (fun r => decide (r.1 ≤ j ∧ j < r.2.1)) = 1 := by
  have hc := segmentByCurvature_chained vs kt h
  exact ⟨hc, fun j h1 h2 => chained_cover_one _ _ _ _ hc h1 h2⟩

/-- Witness for `segmentation_partition` on a concrete two-vertex line. -/
theorem segmentation_partition_witness :
    2 ≤ lineTwo.vertices.length ∧
    (segmentByCurvature lineTwo.vertices 0.1).countP
      (fun r => decide (r.1 ≤ 0 ∧ 0 < r.2.1)) = 1 :=
  ⟨by decide,
   (segmentation_partition lineTwo.vertices 0.1 (by decide)).2 0 (by decide)
     (by decide)⟩

theorem sqrt25 : Real.sqrt 25 = 5 := by
  rw [show (25 : ℝ) = 5 ^ 2 by norm_num]
  exact Real.sqrt_sq (by norm_num)

theorem sqrt64 : Real.sqrt 64 = 8 := by
  rw [show (64 : ℝ) = 8 ^ 2 by norm_num]
  exact Real.sqrt_sq (by norm_num)

theorem sqrt100 : Real.sqrt 100 = 10 := by
  rw [show (100 : ℝ) = 10 ^ 2 by norm_num]
  exact Real.sqrt_sq (by norm_num)

theorem pts5_curv1 : curvatureAt pts5 1 = 0 := by
  unfold curvatureAt
  rw [if_neg (by decide : ¬(1 = 0 ∨ pts5.length - 1 ≤ 1))]
  simp only [pts5, List.getD_cons_zero, List.getD_cons_succ, px, py, hypot]
  norm_num [sqrt25, sqrt100]

theorem pts5_curv2 : curvatureAt pts5 2 = -0.24 := by
  unfold curvatureAt
  rw [if_neg (by decide : ¬(2 = 0 ∨ pts5.length - 1 ≤ 2))]
  simp only [pts5, List.getD_cons_zero, List.getD_cons_succ, px, py, hypot]
  norm_num [sqrt25, sqrt64]

theorem pts5_curv3 : curvatureAt pts5 3 = 0 := by
  unfold curvatureAt
  rw [if_neg (by decide : ¬(3 = 0 ∨ pts5.length - 1 ≤ 3))]
  simp only [pts5, List.getD_cons_zero, List.getD_cons_succ, px, py, hypot]
  norm_num [sqrt25, sqrt100]

theorem pts5_step1 :
    segStep pts5 0.0001 (0, "tangent", []) 1 = (0, "tangent", []) := by
  unfold segStep
  rw [pts5_curv1]
  norm_num

theorem pts5_step2 :
    segStep pts5 0.0001 (0, "tangent", []) 2 =
      (2, "curve", [(0, 2, "tangent")]) := by
  unfold segStep
  rw [pts5_curv2]
  norm_num
  rw [show |(6 / 25 : ℝ)| = 6 / 25 from abs_of_pos (by norm_num)]
  norm_num
  decide

theorem pts5_step3 :
    segStep pts5 0.0001 (2, "curve", [(0, 2, "tangent")]) 3 =
      (3, "tangent", [(0, 2, "tangent"), (2, 3, "curve")]) := by
  unfold segStep
  rw [pts5_curv3]
  norm_num
  decide

theorem pts5_runs :
    segmentByCurvature pts5 0.0001 =
      [(0, 2, "tangent"), (2, 3, "curve"), (3, 4, "tangent")] := by
  unfold segmentByCurvature
  rw [if_neg (by decide : ¬pts5.length < 3)]
  have hlen : pts5.length = 5 := rfl
  rw [hlen]
  rw [show (5 - 2 : ℕ) = 2 + 1 from rfl, segLoop_succ, pts5_step1]
  rw [show (2 : ℕ) = 1 + 1 from rfl, segLoop_succ]
  rw [show (1 + 1 : ℕ) = 2 from rfl, pts5_step2]
  rw [show (1 : ℕ) = 0 + 1 from rfl, segLoop_succ]
  rw [show (1 + 1 + 1 : ℕ) = 3 from rfl, pts5_step3, segLoop_zero]
  norm_num

/-- C3 counterexample: on a concrete five-vertex line the segmentation is
[(0,2,tangent), (2,3,curve), (3,4,tangent)]; index 2 lies inside two runs
(as the inclusive end of the first and the start of the second), so the runs
do not cover every index of [0, n-1] exactly once as the claim states. -/
theorem segmentation_overlap_cex :
    (segmentByCurvature pts5 0.0001).countP
      (fun r => decide (r.1 ≤ 2 ∧ 2 ≤ r.2.1)) = 2 := by
  rw [pts5_runs]
  decide

theorem exists_getLast? {α : Type} : ∀ (l : List α), l ≠ [] → ∃ x, l.getLast? = some x
  | [], h => absurd rfl h
  | [a], _ => ⟨a, rfl⟩
  | a :: b :: t, _ => by
    rw [List.getLast?_cons_cons]
    exact exists_getLast? (b :: t) (by simp)

theorem xyLen_short (vs : List Point) (h : vs.length ≤ 1) : xyLen vs = 0 := by
  match vs with
  | [] => rfl
  | [p] => rfl
  | a :: b :: t => simp at h

theorem lastFix (pts vs : List Point) (hvs : vs ≠ []) (hpts : pts ≠ []) :
    (if pts.getLastD dPoint = vs.getLastD dPoint then pts
     else pts.dropLast ++ [vs.getLastD dPoint]).getLast? = vs.getLast? := by
  obtain ⟨x, hx⟩ := exists_getLast? vs hvs
  have hxd : vs.getLastD dPoint = x := by
    rw [List.getLastD_eq_getLast?, hx]
    rfl
  obtain ⟨y, hy⟩ := exists_getLast? pts hpts
  have hyd : pts.getLastD dPoint = y := by
    rw [List.getLastD_eq_getLast?, hy]
    rfl
  split
  · rename_i heq
    rw [hy, hx]
    rw [hyd, hxd] at heq
    rw [heq]
  · rw [List.getLast?_concat, hxd, hx]

/-- C8: `resample_by_station` always ends at the exact original terminal
vertex: in the degenerate branch it returns the line itself, and otherwise
the final sampled point is force-replaced by `vertices[-1]` when it differs. -/
theorem resample_keeps_last (rl : RoadLine) (step : ℝ) (h : 0 < step) :
    (resampleByStation rl step).vertices.getLast? = rl.vertices.getLast? := by
  unfold resampleByStation
  simp only []
  split
  · rfl
  · rename_i hL
    push_neg at hL
    have hne : rl.vertices ≠ [] := by
      intro he
      have h0 : xyLen rl.vertices = 0 := by rw [he]; rfl
      rw [h0] at hL
      exact lt_irrefl 0 hL
    exact lastFix _ _ hne (by simp)

/-- Witness for `resample_keeps_last` on a concrete 1 m line with step 1. -/
theorem resample_keeps_last_witness :
    (0 : ℝ) < 1 ∧
    (resampleByStation lineTwo 1).vertices.getLast? = lineTwo.vertices.getLast? :=
  ⟨by norm_num, resample_keeps_last lineTwo 1 (by norm_num)⟩

theorem xyLen_lineTwo : xyLen lineTwo.vertices = 1 := by
  have h1 : xyLen lineTwo.vertices = 0 + hypot (1 - 0) (0 - 0) := rfl
  rw [h1, hypot]
  norm_num [Real.sqrt_one]

/-- C4 (amended): for L > 0 and step > 0, `resample_by_station` produces
exactly `max(1, ⌊L/step⌋) + 1` vertices (the code floors the station count
at one full step even when L < step), the i-th of which, except possibly the
final one, is the sample at station i·step. -/
theorem resample_count (rl : RoadLine) (step : ℝ) (hs : 0 < step)
    (hL : 0 < xyLen rl.vertices) :
    (resampleByStation rl step).vertices.length =
      (max 1 ⌊xyLen rl.vertices / step⌋).toNat + 1 ∧
    ∀ i : ℕ, i < (max 1 ⌊xyLen rl.vertices / step⌋).toNat →
      (resampleByStation rl step).vertices[i]? =
        some (sampleXYAtStation rl.vertices ((i : ℝ) * step)) := by
  unfold resampleByStation
  simp only []
  rw [if_neg (not_le.mpr hL)]
  constructor
  · split
    · simp
    · simp
  · intro i hi
    split
    · rw [List.getElem?_map, List.getElem?_range (by omega)]
      rfl
    · rw [List.getElem?_append_left
        (by simp only [List.length_dropLast, List.length_map, List.length_range]; omega)]
      rw [List.getElem?_dropLast,
        if_pos (by simp only [List.length_map, List.length_range]; omega)]
      rw [List.getElem?_map, List.getElem?_range (by omega)]
      rfl

/-- Witness for `resample_count` on a concrete 1 m line with step 1. -/
theorem resample_count_witness :
    (0 : ℝ) < 1 ∧ 0 < xyLen lineTwo.vertices ∧
    (resampleByStation lineTwo 1).vertices.length =
      (max 1 ⌊xyLen lineTwo.vertices / 1⌋).toNat + 1 :=
  ⟨by norm_num, by rw [xyLen_lineTwo]; norm_num,
   (resample_count lineTwo 1 (by norm_num) (by rw [xyLen_lineTwo]; norm_num)).1⟩

/-- C4 counterexample: resampling a 1 m line with a 5 m step yields 2
vertices, while the claimed formula ⌊L/step⌋+1 predicts 1: the code clamps
`n = max(1, floor(L/step))`, so short lines get a full extra station. -/
theorem resample_count_cex :
    (resampleByStation lineTwo 5).vertices.length = 2 ∧
    (⌊xyLen lineTwo.vertices / 5⌋ + 1 : ℤ) = 1 := by
  constructor
  · unfold resampleByStation
    simp only []
    rw [if_neg (by rw [xyLen_lineTwo]; norm_num)]
    rw [xyLen_lineTwo]
    rw [show (⌊(1 : ℝ) / 5⌋ : ℤ) = 0 by norm_num]
    split
    · simp
    · simp
  · rw [xyLen_lineTwo]
    norm_num

theorem rowAt_self (e : ComparisonEngine) (v : List Point) (step : ℝ) (i : ℕ)
    (hm : 0 < e.min_report_error) : rowAt e v v step i = none := by
  unfold rowAt
  simp only []
  have h0 : hypot (px (sampleXYAtStation v ((i : ℝ) * step)) -
      px (sampleXYAtStation v ((i : ℝ) * step)))
      (py (sampleXYAtStation v ((i : ℝ) * step)) -
      py (sampleXYAtStation v ((i : ℝ) * step))) = 0 := by
    rw [sub_self, sub_self, hypot]
    norm_num
  have hz : |pz (sampleXYAtStation v ((i : ℝ) * step)) -
      pz (sampleXYAtStation v ((i : ℝ) * step))| = 0 := by
    rw [sub_self, abs_zero]
  rw [h0, hz, ite_self, ite_self]
  rw [if_pos ⟨hm, rfl⟩]

/-- C7: comparing any line (with at least two vertices) against itself
yields an empty deviation sequence: both samples agree at every station,
both errors are exactly 0 after deadbanding, and the minimum-report filter
(whose default threshold is 15mm > 0) drops every row. -/
theorem compare_self_empty (e : ComparisonEngine) (rl : RoadLine)
    (h2 : 2 ≤ rl.vertices.length) (hm : 0 < e.min_report_error) :
    (e.compare rl rl).deviations = [] := by
  unfold ComparisonEngine.compare
  rw [if_neg (by omega : ¬(rl.vertices.length < 2 ∨ rl.vertices.length < 2))]
  simp only []
  split
  · rfl
  · show List.filterMap _ _ = []
    rw [List.filterMap_eq_nil_iff]
    intro i _
    exact rowAt_self e _ _ i hm

/-- Witness for `compare_self_empty` with the default engine on a 1 m line. -/
theorem compare_self_empty_witness :
    2 ≤ lineTwo.vertices.length ∧ 0 < defaultComparisonEngine.min_report_error ∧
    (defaultComparisonEngine.compare lineTwo lineTwo).deviations = [] :=
  ⟨by decide, by norm_num [defaultComparisonEngine],
   compare_self_empty defaultComparisonEngine lineTwo (by decide)
     (by norm_num [defaultComparisonEngine])⟩

theorem getElem?_eq_some_getD (l : List Point) (j : ℕ) (h : j < l.length) :
    l[j]? = some (l.getD j dPoint) := by
  rw [List.getD_eq_getElem l dPoint h, List.getElem?_eq_getElem h]

theorem head?_eq_some_headD : ∀ (l : List Point), l ≠ [] →
    l.head? = some (l.headD dPoint)
  | [], h => absurd rfl h
  | a :: t, _ => rfl

/-- C6 (amended): in the elevation-smoothing step, an interior vertex whose
Z deviates from its neighbours' average by less than 1 cm is blended toward
that average by `max(0.3, smoothing_factor)` — the configured factor floored
at 0.3 — while XY is copied through unchanged and vertices outside that case
(including the two endpoints) are kept verbatim. -/
theorem smooth_interior_rule (c : GeometricConstraints) (vs : List Point)
    (i : ℕ) (h1 : 1 ≤ i) (h2 : i + 1 < vs.length) :
    (smoothElevationsOnly c vs)[i]? =
      some (px (vs.getD i dPoint), py (vs.getD i dPoint),
        if |pz (vs.getD i dPoint) -
            (pz (vs.getD (i - 1) dPoint) + pz (vs.getD (i + 1) dPoint)) / 2| < 0.01
        then pz (vs.getD i dPoint) +
          max 0.3 c.smoothing_factor *
            ((pz (vs.getD (i - 1) dPoint) + pz (vs.getD (i + 1) dPoint)) / 2 -
              pz (vs.getD i dPoint))
        else pz (vs.getD i dPoint)) ∧
    (smoothElevationsOnly c vs).head? = vs.head? ∧
    (smoothElevationsOnly c vs).getLast? = vs.getLast? := by
  have hlen : 3 ≤ vs.length := by omega
  have hne : vs ≠ [] := by
    intro he
    rw [he] at hlen
    simp at hlen
  unfold smoothElevationsOnly
  rw [if_neg (by omega)]
  obtain ⟨j, rfl⟩ : ∃ j, i = j + 1 := ⟨i - 1, by omega⟩
  refine ⟨?_, ?_, ?_⟩
  · have hmlen : (((vs.zip (vs.drop 1)).zip (vs.drop 2)).map
        (fun q => smoothPoint c (pz q.1.1) (pz q.2) q.1.2)).length = vs.length - 2 := by
      simp only [List.length_map, List.length_zip, List.length_drop]
      omega
    rw [List.getElem?_append_left (by simp only [List.length_cons, hmlen]; omega)]
    rw [List.getElem?_cons_succ]
    rw [List.getElem?_map]
    have hz1 : (vs.zip (vs.drop 1))[j]? =
        some (vs.getD j dPoint, vs.getD (j + 1) dPoint) := by
      refine List.getElem?_zip_eq_some.mpr ⟨?_, ?_⟩
      · exact getElem?_eq_some_getD vs j (by omega)
      · rw [List.getElem?_drop]
        rw [show 1 + j = j + 1 by omega]
        exact getElem?_eq_some_getD vs (j + 1) (by omega)
    have hz2 : ((vs.zip (vs.drop 1)).zip (vs.drop 2))[j]? =
        some ((vs.getD j dPoint, vs.getD (j + 1) dPoint), vs.getD (j + 2) dPoint) := by
      refine List.getElem?_zip_eq_some.mpr ⟨hz1, ?_⟩
      rw [List.getElem?_drop]
      rw [show 2 + j = j + 2 by omega]
      exact getElem?_eq_some_getD vs (j + 2) (by omega)
    rw [hz2]
    show some (smoothPoint c (pz (vs.getD j dPoint)) (pz (vs.getD (j + 2) dPoint))
      (vs.getD (j + 1) dPoint)) = _
    unfold smoothPoint
    simp only []
    rw [show j + 1 - 1 = j by omega, show j + 1 + 1 = j + 2 by omega]
    split
    · rfl
    · rfl
  · rw [List.head?_append, List.head?_cons, head?_eq_some_headD vs hne]
    rfl
  · rw [List.getLast?_concat]
    obtain ⟨x, hx⟩ := exists_getLast? vs hne
    rw [hx, List.getLastD_eq_getLast?, hx]
    rfl

/-- Witness for `smooth_interior_rule` at the middle vertex of a 3-point line. -/
theorem smooth_interior_rule_witness :
    1 ≤ 1 ∧ 1 + 1 < pts3.length ∧
    (smoothElevationsOnly defaultGeometricConstraints pts3).head? = pts3.head? :=
  ⟨le_refl 1, by decide,
   (smooth_interior_rule defaultGeometricConstraints pts3 1 (le_refl 1)
     (by decide)).2.1⟩

/-- C6 counterexample: with a configured smoothing factor of 0.1, the middle
vertex of `pts3` is blended with factor 0.3 (the floor), producing
z = 0.0035 — not the z = 0.0045 that blending by exactly the configured
factor would give. -/
theorem smooth_factor_floor_cex :
    (smoothElevationsOnly lowSmoothConstraints pts3)[1]? =
      some ((1 : ℝ), (0 : ℝ), (0.0035 : ℝ)) ∧
    (0.0035 : ℝ) ≠ 0.005 + lowSmoothConstraints.smoothing_factor *
      ((0 + 0) / 2 - 0.005) := by
  constructor
  · have h1 : (smoothElevationsOnly lowSmoothConstraints pts3)[1]? =
        some (smoothPoint lowSmoothConstraints 0 0 ((1 : ℝ), (0 : ℝ), (0.005 : ℝ))) := by
      unfold smoothElevationsOnly
      rw [if_neg (by decide)]
      simp [pts3, pz]
    rw [h1]
    unfold smoothPoint
    simp only [lowSmoothConstraints, pz, px, py]
    rw [if_pos (by norm_num [abs_lt])]
    rw [show max (0.3 : ℝ) 0.1 = 0.3 from max_eq_left (by norm_num)]
    norm_num
  · simp only [lowSmoothConstraints]
    norm_num

theorem getLast?_drop_one : ∀ (l : List Point), 2 ≤ l.length →
    (l.drop 1).getLast? = l.getLast?
  | [], h => by simp at h
  | [a], h => by simp at h
  | a :: b :: t, _ => by
    show (b :: t).getLast? = (a :: b :: t).getLast?
    rw [List.getLast?_cons_cons]

theorem getD_length_sub_one (l : List Point) :
    l.getD (l.length - 1) dPoint = l.getLastD dPoint := by
  rw [List.getD_eq_getElem?_getD, List.getLastD_eq_getLast?, List.getLast?_eq_getElem?]

theorem smooth_head? (c : GeometricConstraints) (vs : List Point) :
    (smoothElevationsOnly c vs).head? = vs.head? := by
  unfold smoothElevationsOnly
  split
  · rfl
  · rename_i hlen
    push_neg at hlen
    have hne : vs ≠ [] := by
      intro he
      rw [he] at hlen
      simp at hlen
    rw [List.head?_append, List.head?_cons, head?_eq_some_headD vs hne]
    rfl

theorem smooth_getLast? (c : GeometricConstraints) (vs : List Point) :
    (smoothElevationsOnly c vs).getLast? = vs.getLast? := by
  unfold smoothElevationsOnly
  split
  · rfl
  · rename_i hlen
    push_neg at hlen
    have hne : vs ≠ [] := by
      intro he
      rw [he] at hlen
      simp at hlen
    rw [List.getLast?_concat]
    obtain ⟨x, hx⟩ := exists_getLast? vs hne
    rw [hx, List.getLastD_eq_getLast?, hx]
    rfl

theorem pcaProj_length (pts : List Point) : (pcaProj pts).length = pts.length := by
  unfold pcaProj
  rw [List.length_map]

theorem tangentMids_length (g : GeometryIdealizer) (pts : List Point) :
    (tangentMids g pts).length = pts.length - 2 := by
  unfold tangentMids
  rw [List.length_map, List.length_zip, List.length_dropLast, List.length_drop,
    List.length_dropLast, List.length_drop, pcaProj_length, Nat.min_self]
  omega

theorem curveMids_length (g : GeometryIdealizer) (pts : List Point) :
    (curveMids g pts).length = pts.length - 2 := by
  unfold curveMids
  rw [List.length_map, List.length_dropLast, List.length_drop]
  omega

theorem straightenTangent_length (g : GeometryIdealizer) (pts : List Point) :
    (straightenTangent g pts).length = pts.length := by
  unfold straightenTangent
  split
  · rfl
  · split
    · rfl
    · rename_i hlen _
      simp only [List.length_append, List.length_cons, List.length_nil,
        tangentMids_length]
      omega

theorem straightenTangent_getLast? (g : GeometryIdealizer) (pts : List Point) :
    (straightenTangent g pts).getLast? = pts.getLast? := by
  unfold straightenTangent
  split
  · rfl
  · rename_i hlen
    push_neg at hlen
    have hne : pts ≠ [] := by
      intro he
      rw [he] at hlen
      simp at hlen
    split
    · rfl
    · rw [List.getLast?_concat]
      obtain ⟨x, hx⟩ := exists_getLast? pts hne
      rw [hx, List.getLastD_eq_getLast?, hx]
      rfl

theorem regularizeCurve_length (g : GeometryIdealizer) (pts : List Point) :
    (regularizeCurve g pts).length = pts.length := by
  unfold regularizeCurve
  split
  · rfl
  · rename_i hlen
    push_neg at hlen
    split
    · rfl
    · split
      · rfl
      · split
        · rfl
        · split
          · rfl
          · unfold curveOut
            simp only [List.length_append, List.length_cons, List.length_nil,
              curveMids_length]
            omega

theorem regularizeCurve_getLast? (g : GeometryIdealizer) (pts : List Point) :
    (regularizeCurve g pts).getLast? = pts.getLast? := by
  unfold regularizeCurve
  split
  · rfl
  · rename_i hlen
    push_neg at hlen
    have hne : pts ≠ [] := by
      intro he
      rw [he] at hlen
      simp at hlen
    obtain ⟨x, hx⟩ := exists_getLast? pts hne
    split
    · rfl
    · split
      · rfl
      · split
        · rfl
        · split
          · rfl
          · unfold curveOut
            rw [List.getLast?_concat, hx, List.getLastD_eq_getLast?, hx]
            rfl

theorem processChunk_length (g : GeometryIdealizer) (k : String)
    (chunk : List Point) : (processChunk g k chunk).length = chunk.length := by
  unfold processChunk
  split
  · rfl
  · split
    · exact straightenTangent_length g chunk
    · exact regularizeCurve_length g chunk

theorem processChunk_getLast? (g : GeometryIdealizer) (k : String)
    (chunk : List Point) : (processChunk g k chunk).getLast? = chunk.getLast? := by
  unfold processChunk
  split
  · rfl
  · split
    · exact straightenTangent_getLast? g chunk
    · exact regularizeCurve_getLast? g chunk

theorem sliceChunk_length (l : List Point) (a b : ℤ) (h0 : 0 ≤ a)
    (hab : a < b) (hb : b ≤ (l.length : ℤ) - 1) :
    (sliceChunk l a b).length = b.toNat + 1 - a.toNat := by
  unfold sliceChunk
  rw [List.length_take, List.length_drop]
  omega

theorem sliceChunk_getLast? (l : List Point) (a b : ℤ) (h0 : 0 ≤ a)
    (hab : a < b) (hb : b ≤ (l.length : ℤ) - 1) :
    (sliceChunk l a b).getLast? = some (l.getD b.toNat dPoint) := by
  have hlen := sliceChunk_length l a b h0 hab hb
  rw [List.getLast?_eq_getElem?, hlen]
  unfold sliceChunk
  rw [show b.toNat + 1 - a.toNat - 1 = b.toNat - a.toNat by omega]
  rw [List.getElem?_take_of_lt (by omega), List.getElem?_drop]
  rw [show a.toNat + (b.toNat - a.toNat) = b.toNat by omega]
  exact getElem?_eq_some_getD l b.toNat (by omega)

theorem dedupFix_getLast? (cleaned vs : List Point) (hvne : vs ≠ [])
    (hcne : cleaned ≠ [])
    (h2 : 2 ≤ (if 1 < cleaned.length ∧ cleaned.getLastD dPoint ≠ vs.getLastD dPoint
        then cleaned ++ [vs.getLastD dPoint] else cleaned).length) :
    (if 1 < cleaned.length ∧ cleaned.getLastD dPoint ≠ vs.getLastD dPoint
     then cleaned ++ [vs.getLastD dPoint] else cleaned).getLast? = vs.getLast? := by
  obtain ⟨x, hx⟩ := exists_getLast? vs hvne
  have hxd : vs.getLastD dPoint = x := by
    rw [List.getLastD_eq_getLast?, hx]
    rfl
  split at h2
  · rename_i hcond
    rw [if_pos hcond, List.getLast?_concat, hxd, hx]
  · rename_i hcond
    rw [if_neg hcond]
    push_neg at hcond
    obtain ⟨y, hy⟩ := exists_getLast? cleaned hcne
    have hyd : cleaned.getLastD dPoint = y := by
      rw [List.getLastD_eq_getLast?, hy]
      rfl
    have heq := hcond (by omega)
    rw [hy, hx]
    rw [hyd, hxd] at heq
    rw [heq]

theorem dedup_head? (g : GeometryIdealizer) (vs : List Point) :
    (removeNearDuplicates g vs).head? = vs.head? := by
  unfold removeNearDuplicates
  simp only []
  split
  · rfl
  · rename_i hlen
    push_neg at hlen
    have hne : vs ≠ [] := by
      intro he
      rw [he] at hlen
      simp at hlen
    split <;> split
    · rw [List.head?_append, List.head?_cons, head?_eq_some_headD vs hne]
      rfl
    · rw [List.head?_cons, head?_eq_some_headD vs hne]
    · rw [List.head?_append, List.head?_cons, head?_eq_some_headD vs hne]
      rfl
    · rw [List.head?_cons, head?_eq_some_headD vs hne]

theorem dedup_getLast? (g : GeometryIdealizer) (vs : List Point)
    (h2 : 2 ≤ (removeNearDuplicates g vs).length) :
    (removeNearDuplicates g vs).getLast? = vs.getLast? := by
  unfold removeNearDuplicates at h2 ⊢
  simp only [] at h2 ⊢
  by_cases hlen : vs.length ≤ 2
  · rw [if_pos hlen]
  · rw [if_neg hlen] at h2 ⊢
    push_neg at hlen
    have hne : vs ≠ [] := by
      intro he
      rw [he] at hlen
      simp at hlen
    by_cases hmode : g.mode = "aggressive"
    · rw [if_pos hmode] at h2 ⊢
      exact dedupFix_getLast? _ vs hne (by simp) h2
    · rw [if_neg hmode] at h2 ⊢
      exact dedupFix_getLast? _ vs hne (by simp) h2

theorem buildFold_getLast? (g : GeometryIdealizer) (cleaned : List Point) :
    ∀ (segs : List (ℤ × ℤ × String)) (a b : ℤ) (acc : List Point),
    Chained a b segs → 0 ≤ a → b ≤ (cleaned.length : ℤ) - 1 →
    acc.getLast? = some (cleaned.getD a.toNat dPoint) →
    (segs.foldl (fun acc s =>
        acc ++ (processChunk g s.2.2 (sliceChunk cleaned s.1 s.2.1)).drop 1)
      acc).getLast? = some (cleaned.getD b.toNat dPoint)
  | [], a, b, acc, hch, h0, hb, hacc => by
    rw [List.foldl_nil]
    have hab : a = b := hch
    rw [← hab]
    exact hacc
  | s :: rest, a, b, acc, hch, h0, hb, hacc => by
    obtain ⟨e1, e2, e3⟩ := hch
    rw [List.foldl_cons]
    have hbe : s.2.1 ≤ b := chained_le rest s.2.1 b e3
    have hpLast : (processChunk g s.2.2 (sliceChunk cleaned s.1 s.2.1)).getLast? =
        some (cleaned.getD s.2.1.toNat dPoint) := by
      rw [processChunk_getLast?]
      exact sliceChunk_getLast? cleaned s.1 s.2.1 (by omega) (by omega) (by omega)
    have hpLen : 2 ≤ (processChunk g s.2.2 (sliceChunk cleaned s.1 s.2.1)).length := by
      rw [processChunk_length,
        sliceChunk_length cleaned s.1 s.2.1 (by omega) (by omega) (by omega)]
      omega
    have hdLast : ((processChunk g s.2.2 (sliceChunk cleaned s.1 s.2.1)).drop 1).getLast?
        = some (cleaned.getD s.2.1.toNat dPoint) := by
      rw [getLast?_drop_one _ hpLen]
      exact hpLast
    have hacc2 : (acc ++ (processChunk g s.2.2 (sliceChunk cleaned s.1 s.2.1)).drop 1).getLast?
        = some (cleaned.getD s.2.1.toNat dPoint) := by
      rw [List.getLast?_append, hdLast]
      rfl
    exact buildFold_getLast? g cleaned rest s.2.1 b _ e3 (by omega) hb hacc2

theorem buildFold_head? (g : GeometryIdealizer) (cleaned : List Point) :
    ∀ (segs : List (ℤ × ℤ × String)) (acc : List Point), acc ≠ [] →
    (segs.foldl (fun acc s =>
        acc ++ (processChunk g s.2.2 (sliceChunk cleaned s.1 s.2.1)).drop 1)
      acc).head? = acc.head? ∧
    segs.foldl (fun acc s =>
        acc ++ (processChunk g s.2.2 (sliceChunk cleaned s.1 s.2.1)).drop 1)
      acc ≠ []
  | [], acc, h => ⟨rfl, h⟩
  | s :: rest, acc, h => by
    rw [List.foldl_cons]
    have hne : acc ++ (processChunk g s.2.2 (sliceChunk cleaned s.1 s.2.1)).drop 1 ≠ [] := by
      intro he
      exact h (List.append_eq_nil.mp he).1
    have hrec := buildFold_head? g cleaned rest _ hne
    refine ⟨?_, hrec.2⟩
    rw [hrec.1, List.head?_append]
    cases acc with
    | nil => exact absurd rfl h
    | cons a t => rfl

/-- C9 (amended): `idealize` always preserves the first input vertex, and it
preserves the last input vertex whenever near-duplicate removal keeps at
least two points; when the whole polyline collapses into the first vertex
(every point within the minimum distance chain), the last vertex is lost. -/
theorem idealize_endpoints (g : GeometryIdealizer) (rl : RoadLine) :
    (idealize g rl).vertices.head? = rl.vertices.head? ∧
    (2 ≤ (removeNearDuplicates g rl.vertices).length →
      (idealize g rl).vertices.getLast? = rl.vertices.getLast?) := by
  unfold idealize
  simp only []
  split
  · exact ⟨rfl, fun _ => rfl⟩
  · rename_i h3
    push_neg at h3
    split
    · exact ⟨dedup_head? g rl.vertices, fun h2 => dedup_getLast? g rl.vertices h2⟩
    · rename_i hcl
      push_neg at hcl
      have hcne : removeNearDuplicates g rl.vertices ≠ [] := by
        intro he
        rw [he] at hcl
        simp at hcl
      constructor
      · show (smoothElevationsOnly g.constraints (buildXYFixed g
            (removeNearDuplicates g rl.vertices)
            (segmentByCurvature (removeNearDuplicates g rl.vertices)
              g.k_threshold))).head? = rl.vertices.head?
        rw [smooth_head?]
        unfold buildXYFixed
        rw [(buildFold_head? g (removeNearDuplicates g rl.vertices) _ _ (by simp)).1]
        rw [List.head?_cons]
        rw [← head?_eq_some_headD _ hcne]
        exact dedup_head? g rl.vertices
      · intro h2
        show (smoothElevationsOnly g.constraints (buildXYFixed g
            (removeNearDuplicates g rl.vertices)
            (segmentByCurvature (removeNearDuplicates g rl.vertices)
              g.k_threshold))).getLast? = rl.vertices.getLast?
        rw [smooth_getLast?]
        unfold buildXYFixed
        have hchain := segmentByCurvature_chained (removeNearDuplicates g rl.vertices)
          g.k_threshold (by omega)
        have hinit : ([(removeNearDuplicates g rl.vertices).headD dPoint] :
            List Point).getLast? =
            some ((removeNearDuplicates g rl.vertices).getD ((0 : ℤ)).toNat dPoint) := by
          cases hc : removeNearDuplicates g rl.vertices with
          | nil => exact absurd hc hcne
          | cons a t => rfl
        rw [buildFold_getLast? g (removeNearDuplicates g rl.vertices) _ 0
          (((removeNearDuplicates g rl.vertices).length : ℤ) - 1) _ hchain
          (le_refl 0) (by omega) hinit]
        rw [show ((((removeNearDuplicates g rl.vertices).length : ℤ) - 1)).toNat =
          (removeNearDuplicates g rl.vertices).length - 1 by omega]
        rw [getD_length_sub_one]
        rw [List.getLastD_eq_getLast?]
        obtain ⟨y, hy⟩ := exists_getLast? _ hcne
        rw [hy]
        rw [← dedup_getLast? g rl.vertices h2, hy]
        rfl

/-- Witness for `idealize_endpoints` on a concrete two-vertex line. -/
theorem idealize_endpoints_witness :
    (idealize defaultIdealizer lineTwo).vertices.head? = lineTwo.vertices.head? ∧
    (idealize defaultIdealizer lineTwo).vertices.getLast? =
      lineTwo.vertices.getLast? :=
  ⟨(idealize_endpoints defaultIdealizer lineTwo).1,
   (idealize_endpoints defaultIdealizer lineTwo).2 (by
     unfold removeNearDuplicates
     rw [if_pos (by decide : lineTwo.vertices.length ≤ 2)]
     decide)⟩

theorem dist_small1 :
    distance3d ((0.001 : ℝ), (0 : ℝ), (0 : ℝ)) ((0 : ℝ), (0 : ℝ), (0 : ℝ)) = 0.001 := by
  unfold distance3d
  simp only [px, py, pz]
  rw [show ((0.001 : ℝ) - 0) ^ 2 + ((0 : ℝ) - 0) ^ 2 + ((0 : ℝ) - 0) ^ 2 =
    (0.001 : ℝ) ^ 2 by norm_num]
  exact Real.sqrt_sq (by norm_num)

theorem dist_small2 :
    distance3d ((0.002 : ℝ), (0 : ℝ), (0 : ℝ)) ((0 : ℝ), (0 : ℝ), (0 : ℝ)) = 0.002 := by
  unfold distance3d
  simp only [px, py, pz]
  rw [show ((0.002 : ℝ) - 0) ^ 2 + ((0 : ℝ) - 0) ^ 2 + ((0 : ℝ) - 0) ^ 2 =
    (0.002 : ℝ) ^ 2 by norm_num]
  exact Real.sqrt_sq (by norm_num)

theorem collapse_loop :
    dedupLoop 0.005 ((0 : ℝ), (0 : ℝ), (0 : ℝ))
      [((0.001 : ℝ), (0 : ℝ), (0 : ℝ)), ((0.002 : ℝ), (0 : ℝ), (0 : ℝ))] = [] := by
  unfold dedupLoop
  rw [if_neg (by rw [dist_small1]; norm_num)]
  unfold dedupLoop
  rw [if_neg (by rw [dist_small2]; norm_num)]
  rfl

theorem collapse_clean :
    removeNearDuplicates defaultIdealizer collapseLine.vertices =
      [((0 : ℝ), (0 : ℝ), (0 : ℝ))] := by
  unfold removeNearDuplicates
  rw [if_neg (by decide : ¬collapseLine.vertices.length ≤ 2)]
  simp only []
  rw [if_neg (by decide : ¬defaultIdealizer.mode = "aggressive")]
  rw [show collapseLine.vertices.headD dPoint = ((0 : ℝ), (0 : ℝ), (0 : ℝ)) from rfl]
  rw [show List.drop 1 collapseLine.vertices =
    [((0.001 : ℝ), (0 : ℝ), (0 : ℝ)), ((0.002 : ℝ), (0 : ℝ), (0 : ℝ))] from rfl]
  rw [collapse_loop]
  rw [if_neg (by intro hc; exact absurd hc.1 (by decide))]

/-- C9 counterexample: on a 3-vertex line whose points all lie within the
5 mm conservative minimum distance, near-duplicate removal keeps only the
first vertex (the `len(cleaned) > 1` guard skips restoring the last one), so
`idealize` returns a single-vertex line and the input's last vertex is lost. -/
theorem idealize_drops_last_cex :
    (idealize defaultIdealizer collapseLine).vertices.getLast? ≠
      collapseLine.vertices.getLast? := by
  unfold idealize
  simp only []
  rw [if_neg (by decide : ¬collapseLine.vertices.length < 3)]
  rw [collapse_clean]
  rw [if_pos (by decide : ([((0 : ℝ), (0 : ℝ), (0 : ℝ))] : List Point).length < 3)]
  show some ((0 : ℝ), (0 : ℝ), (0 : ℝ)) ≠ some ((0.002 : ℝ), (0 : ℝ), (0 : ℝ))
  intro hcontra
  have h1 := Option.some.inj hcontra
  have h0 := congrArg Prod.fst h1
  norm_num at h0
